import Mathlib

/-!
Verification of the matcha matcher library (src/include/matcha/matcha.hpp)
against its natural-language specification.

Strings are embedded as `List Char`; `size_t` arithmetic is embedded as
natural-number arithmetic modulo 2^64; fallible operations (a C++ call that
may throw) return `Except Unit`.
-/

namespace matcha

/-- Three-way comparison of two character sequences, as performed by
`std::basic_string::compare`: `std::char_traits<char>::compare` over the
common prefix, and when that prefix is equal the shorter sequence orders
first (the size tie-break).  Only the sign (and zero-ness) of the C++
return value is observable, which this function reproduces. -/
def cmpChars : List Char → List Char → Int
  | [], [] => 0
  | [], _ :: _ => -1
  | _ :: _, [] => 1
  | a :: as, b :: bs =>
    if a < b then -1 else if b < a then 1 else cmpChars as bs

/-- The modulus of C++ `size_t` arithmetic on a 64-bit platform. -/
def SIZE_T_MOD : Nat := 2 ^ 64

/-- Wrap-around subtraction of two `size_t` values (C++ unsigned
subtraction, which underflows to a huge value when `b > a`). -/
def size_t_sub (a b : Nat) : Nat :=
  (a % SIZE_T_MOD + SIZE_T_MOD - b % SIZE_T_MOD) % SIZE_T_MOD

/-- `std::string::compare(pos, count, str)` on `s`: throws
`std::out_of_range` (modelled as `Except.error ()`) when `pos > s.size()`,
otherwise three-way-compares the substring `[pos, pos+count)` (clamped to
the end of `s`) against `t`. -/
def string_compare (s : List Char) (pos count : Nat) (t : List Char) :
    Except Unit Int :=
  if pos > s.length then Except.error ()
  else Except.ok (cmpChars ((s.drop pos).take count) t)

/-- `StringStartsWith_::matches(substr, actual)`, the body of
`startsWith(substr).matches(actual)`:
`!actual.compare(0, substr.size(), substr)`. -/
def StringStartsWith_matches (substr actual : List Char) : Except Unit Bool :=
  (string_compare actual 0 substr.length substr).map (fun c => c == 0)

/-- `StringEndsWith_::matches(substr, actual)`, the body of
`endsWith(substr).matches(actual)`:
`!actual.compare(actual.size() - substr.size(), substr.size(), substr)`,
where `actual.size() - substr.size()` is unsigned `size_t` arithmetic. -/
def StringEndsWith_matches (substr actual : List Char) : Except Unit Bool :=
  (string_compare actual (size_t_sub actual.length substr.length)
    substr.length substr).map (fun c => c == 0)

theorem cmpChars_eq_zero_iff : ∀ s t : List Char, cmpChars s t = 0 ↔ s = t := by
  intro s
  induction s with
  | nil =>
    intro t
    cases t <;> simp [cmpChars]
  | cons a as ih =>
    intro t
    cases t with
    | nil => simp [cmpChars]
    | cons b bs =>
      by_cases hab : a < b
      · simp only [cmpChars, if_pos hab]
        constructor
        · intro h; exact absurd h (by decide)
        · intro h
          exact absurd (List.cons.injEq a as b bs ▸ h).1 (ne_of_lt hab)
      · by_cases hba : b < a
        · simp only [cmpChars, if_neg hab, if_pos hba]
          constructor
          · intro h; exact absurd h (by decide)
          · intro h
            exact absurd (List.cons.injEq a as b bs ▸ h).1 (ne_of_gt hba)
        · have heq : a = b := le_antisymm (not_lt.mp hba) (not_lt.mp hab)
          subst heq
          simp [cmpChars, ih bs]

theorem StringStartsWith_matches_eq (p a : List Char) :
    StringStartsWith_matches p a =
      Except.ok (cmpChars (List.take p.length a) p == 0) := by
  simp [StringStartsWith_matches, string_compare, Except.map]

/-- C5: `startsWith(p).matches(a)` returns true iff the first `len(p)`
characters of `a` equal `p`, and returns false — not an exception — when
`p` is longer than `a`. -/
theorem C5_startsWith_correct (p a : List Char) :
    (StringStartsWith_matches p a = Except.ok true ↔
      p.length ≤ a.length ∧ List.take p.length a = p) ∧
    (a.length < p.length → StringStartsWith_matches p a = Except.ok false) := by
  constructor
  · rw [StringStartsWith_matches_eq]
    simp only [Except.ok.injEq, beq_iff_eq, cmpChars_eq_zero_iff]
    constructor
    · intro h
      refine ⟨?_, h⟩
      have hlen := congrArg List.length h
      simp only [List.length_take] at hlen
      omega
    · exact fun h => h.2
  · intro hlt
    rw [StringStartsWith_matches_eq]
    have hne : List.take p.length a ≠ p := by
      intro h
      have hlen := congrArg List.length h
      simp only [List.length_take] at hlen
      omega
    simp only [Except.ok.injEq, beq_eq_false_iff_ne, ne_eq,
      cmpChars_eq_zero_iff]
    exact hne

/-- Witness for C5 at a concrete input: `startsWith("ab").matches("a")`
is false because the expected text is longer than the actual text. -/
theorem C5_startsWith_correct_witness :
    StringStartsWith_matches ['a', 'b'] ['a'] = Except.ok false :=
  (C5_startsWith_correct ['a', 'b'] ['a']).2 (by decide)

/-- C10: the empty expected text is a prefix of every actual text:
`startsWith("").matches(a)` is true for every `a`, including the empty
string. -/
theorem C10_startsWith_empty (a : List Char) :
    StringStartsWith_matches [] a = Except.ok true := by
  simp [StringStartsWith_matches, string_compare, cmpChars, Except.map]

/-- C1: `endsWith("abc").matches("a")` does not return false safely: the
offset `actual.size() - substr.size()` underflows to `2^64 - 2`, which is
past the end of the actual string, so `std::string::compare` raises
`std::out_of_range` (modelled as `Except.error ()`). -/
theorem C1_endsWith_raises_when_suffix_longer :
    StringEndsWith_matches ['a', 'b', 'c'] ['a'] = Except.error () := by
  rfl

/-- The diagnostic bytes written by `StandardOutputPolicy::print` on a
failed match: `std::cout << "Expected: " << expected << "\n but got: "
<< actual << std::endl` — `std::endl` appends a newline. -/
def StandardOutputPolicy_diag (expected actual : String) : String :=
  "Expected: " ++ expected ++ "\n but got: " ++ actual ++ "\n"

/-- The diagnostic bytes carried by the `std::logic_error` thrown by
`ExceptionOutputPolicy::print` on a failed match; the message is built
with the same inserters, `std::endl` included. -/
def ExceptionOutputPolicy_diag (expected actual : String) : String :=
  "Expected: " ++ expected ++ "\n but got: " ++ actual ++ "\n"

/-- The diagnostic bytes streamed into `::testing::AssertionFailure()` by
`GTestOutputPolicy::print` on a failed match; no `std::endl` here. -/
def GTestOutputPolicy_diag (expected actual : String) : String :=
  "Expected: " ++ expected ++ "\n but got: " ++ actual

/-- C2 counterexample: the standard output strategy does not produce
exactly `"Expected: " + expectedText + "\n but got: " + actualText`; at
expected text "6" and actual text "5" it appends a trailing newline. -/
theorem C2_diag_not_bare :
    ¬ StandardOutputPolicy_diag "6" "5" = "Expected: 6\n but got: 5" := by
  decide

/-- C2 (amended): the GTest strategy produces exactly
`"Expected: " + expectedText + "\n but got: " + actualText`; the standard
and exception strategies both produce that same text followed by one
trailing newline, and so are byte-identical to each other. -/
theorem C2_diag_strategies (expected actual : String) :
    StandardOutputPolicy_diag expected actual =
      ExceptionOutputPolicy_diag expected actual ∧
    GTestOutputPolicy_diag expected actual =
      "Expected: " ++ expected ++ "\n but got: " ++ actual ∧
    StandardOutputPolicy_diag expected actual =
      GTestOutputPolicy_diag expected actual ++ "\n" := by
  refine ⟨rfl, rfl, ?_⟩
  simp [StandardOutputPolicy_diag, GTestOutputPolicy_diag, String.append_assoc]

/-- The outcome of C++ overload resolution over a list of candidates,
each guarded by the boolean value of its `enable_if` condition. -/
inductive Resolution (β : Type) where
  | resolved (value : β)
  | ambiguous
  | illFormed
deriving DecidableEq

/-- C++ overload resolution: keep the candidates whose SFINAE guard
holds; exactly one must survive, otherwise the call is ambiguous (two or
more) or ill-formed (none). -/
def resolveOverloads {β : Type} (cands : List (Bool × β)) : Resolution β :=
  match cands.filter (fun c => c.1) with
  | [] => Resolution.illFormed
  | [c] => Resolution.resolved c.2
  | _ :: _ :: _ => Resolution.ambiguous

/-- The compile-time facts and comparison operations a C++ type `T`
brings to the equality policy: `is_equality_comparable<T>::value`,
`std::is_pod<T>::value`, `operator==`, and `memcmp` over the object
representation. -/
structure EqCapability (α : Type) where
  eqComparable : Bool
  pod : Bool
  opEq : α → α → Bool
  byteEq : α → α → Bool

/-- `IsEqual_::matches(expected, actual)`, as the overload resolution the
compiler performs between the two SFINAE-guarded overloads: the first is
viable iff `is_equality_comparable<T>`, the second iff
`!is_equality_comparable<T> && is_pod<T>`. -/
def IsEqual_matches {α : Type} (cap : EqCapability α) (expected actual : α) :
    Resolution Bool :=
  resolveOverloads
    [(cap.eqComparable, cap.opEq expected actual),
     (!cap.eqComparable && cap.pod, cap.byteEq expected actual)]

/-- C3: when `T` supports `==`, `equalTo(x).matches(y)` resolves to
`x == y` (never the byte fallback); when `T` lacks `==` but is POD it
resolves to byte-wise equality; when neither holds the call is rejected
at build time. -/
theorem C3_equalTo_dispatch {α : Type} (cap : EqCapability α) (x y : α) :
    (cap.eqComparable = true →
      IsEqual_matches cap x y = Resolution.resolved (cap.opEq x y)) ∧
    (cap.eqComparable = false → cap.pod = true →
      IsEqual_matches cap x y = Resolution.resolved (cap.byteEq x y)) ∧
    (cap.eqComparable = false → cap.pod = false →
      IsEqual_matches cap x y = Resolution.illFormed) := by
  obtain ⟨e, p, f, g⟩ := cap
  refine ⟨?_, ?_, ?_⟩ <;> intro h <;> first
    | (intro h2; subst h; subst h2;
       simp [IsEqual_matches, resolveOverloads, List.filter])
    | (subst h; simp [IsEqual_matches, resolveOverloads, List.filter])

/-- Witness for C3 at concrete capability records over `Nat`: an
equality-comparable type uses `==`, a POD-only type uses bytes, a type
with neither is ill-formed. -/
theorem C3_equalTo_dispatch_witness :
    IsEqual_matches
      ⟨true, false, fun a b => a == b, fun _ _ => false⟩ (1 : Nat) 1 =
      Resolution.resolved true ∧
    IsEqual_matches
      ⟨false, true, fun _ _ => false, fun a b => a == b⟩ (1 : Nat) 1 =
      Resolution.resolved true ∧
    IsEqual_matches
      ⟨false, false, fun _ _ => false, fun _ _ => false⟩ (1 : Nat) 1 =
      Resolution.illFormed :=
  ⟨(C3_equalTo_dispatch ⟨true, false, fun a b => a == b, fun _ _ => false⟩
      1 1).1 rfl,
   (C3_equalTo_dispatch ⟨false, true, fun _ _ => false, fun a b => a == b⟩
      1 1).2.1 rfl rfl,
   (C3_equalTo_dispatch ⟨false, false, fun _ _ => false, fun _ _ => false⟩
      1 1).2.2 rfl rfl⟩

/-- A built matcher, reduced to its observable behaviour: the boolean
`matches(actual)` member. -/
structure MatcherM (α : Type) where
  doesMatch : α → Bool

/-- `IsNot_::matches(expected, actual)`:
`!expected.matches(actual)`. -/
def IsNot_matches {α : Type} (expected : MatcherM α) (actual : α) : Bool :=
  !expected.doesMatch actual

/-- `operator!` on matchers: builds the `IsNot` matcher wrapping the
operand. -/
def notM {α : Type} (m : MatcherM α) : MatcherM α :=
  ⟨fun actual => IsNot_matches m actual⟩

/-- `AllOf_::matches(matchers, actual)`:
`std::get<0>(matchers).matches(actual) &&
std::get<1>(matchers).matches(actual)`. -/
def AllOf_matches {α : Type} (matchers : MatcherM α × MatcherM α)
    (actual : α) : Bool :=
  matchers.1.doesMatch actual && matchers.2.doesMatch actual

/-- `allOf(ma, mb)`: builds the `AllOf` matcher over the pair. -/
def allOfM {α : Type} (ma mb : MatcherM α) : MatcherM α :=
  ⟨fun actual => AllOf_matches (ma, mb) actual⟩

/-- `AnyOf_::matches(matchers, actual)`:
`std::get<0>(matchers).matches(actual) ||
std::get<1>(matchers).matches(actual)`. -/
def AnyOf_matches {α : Type} (matchers : MatcherM α × MatcherM α)
    (actual : α) : Bool :=
  matchers.1.doesMatch actual || matchers.2.doesMatch actual

/-- `anyOf(ma, mb)`: builds the `AnyOf` matcher over the pair. -/
def anyOfM {α : Type} (ma mb : MatcherM α) : MatcherM α :=
  ⟨fun actual => AnyOf_matches (ma, mb) actual⟩

/-- C4: `allOf(A, B)` is logical AND, `anyOf(A, B)` is logical OR, `!A`
is logical NOT, and `!!A` agrees with `A` on every actual value. -/
theorem C4_combinator_algebra {α : Type} (A B : MatcherM α) (x : α) :
    ((allOfM A B).doesMatch x = true ↔
      A.doesMatch x = true ∧ B.doesMatch x = true) ∧
    ((anyOfM A B).doesMatch x = true ↔
      A.doesMatch x = true ∨ B.doesMatch x = true) ∧
    ((notM A).doesMatch x = true ↔ ¬ A.doesMatch x = true) ∧
    (notM (notM A)).doesMatch x = A.doesMatch x := by
  simp [allOfM, anyOfM, notM, AllOf_matches, AnyOf_matches, IsNot_matches]

/-- The every-item overload of `IsContaining_::matches(itemMatcher,
cont)`: `std::all_of` over the container with the sub-matcher as the
predicate. -/
def IsContaining_matchesEvery {α : Type} (itemMatcher : MatcherM α)
    (cont : List α) : Bool :=
  cont.all (fun item => itemMatcher.doesMatch item)

/-- `equalTo(x)` specialised to an equality-comparable element type:
`IsEqual_::matches` resolves to `expected == actual` (see C3). -/
def equalToM {α : Type} [DecidableEq α] (x : α) : MatcherM α :=
  ⟨fun actual => decide (x = actual)⟩

/-- C6: `everyItem(m).matches(c)` is true iff every element of `c`
satisfies `m`; in particular it is vacuously true on an empty collection,
true on `[x, x]` with `equalTo(x)`, and false on `[x, y]` when `y ≠ x`. -/
theorem C6_everyItem {α : Type} [DecidableEq α] (m : MatcherM α)
    (c : List α) (x y : α) :
    (IsContaining_matchesEvery m c = true ↔
      ∀ e ∈ c, m.doesMatch e = true) ∧
    IsContaining_matchesEvery m ([] : List α) = true ∧
    IsContaining_matchesEvery (equalToM x) [x, x] = true ∧
    (y ≠ x → IsContaining_matchesEvery (equalToM x) [x, y] = false) := by
  refine ⟨?_, rfl, ?_, ?_⟩
  · simp [IsContaining_matchesEvery, List.all_eq_true]
  · simp [IsContaining_matchesEvery, equalToM]
  · intro hxy
    simp [IsContaining_matchesEvery, equalToM, Ne.symm hxy]

/-- Witness for C6 at concrete inputs over `Nat`: `everyItem(equalTo(0))`
rejects `[0, 1]`. -/
theorem C6_everyItem_witness :
    IsContaining_matchesEvery (equalToM (0 : Nat)) [0, 1] = false :=
  (C6_everyItem (equalToM (0 : Nat)) [] 0 1).2.2.2 (by decide)

/-- The observable outcome of `MatchesPattern_::matches`: either the
pattern engine's error propagates out (a thrown `std::regex_error`), or a
boolean match result is returned. -/
inductive RegexOutcome where
  | raised
  | result (value : Bool)
deriving DecidableEq

/-- `MatchesPattern_::matches(reg, actual)`:
`return std::regex_match(actual, std::regex(reg));`.
The pattern engine itself is the C++ standard library, outside this
repository, so it is abstracted: `regexCompile` models `std::regex`
construction — modelled from the spec: compiling invalid pattern text
signals the engine's own error (`std::regex_error`), here `none` — and
`regexFullMatch` models `std::regex_match` on a compiled pattern.  The
source installs no handler, so a construction error propagates before any
matching is consulted. -/
def MatchesPattern_matches {ρ : Type} (regexCompile : String → Option ρ)
    (regexFullMatch : ρ → String → Bool) (reg actual : String) :
    RegexOutcome :=
  match regexCompile reg with
  | Option.none => RegexOutcome.raised
  | Option.some r => RegexOutcome.result (regexFullMatch r actual)

/-- C7: when the pattern text is invalid (the engine's compilation
signals an error), the matcher raises that error — whatever the matching
function would have said — and never silently returns a boolean result,
in particular never false. -/
theorem C7_invalid_pattern_raises {ρ : Type}
    (regexCompile : String → Option ρ)
    (regexFullMatch : ρ → String → Bool) (reg actual : String)
    (hinv : regexCompile reg = Option.none) :
    MatchesPattern_matches regexCompile regexFullMatch reg actual =
      RegexOutcome.raised ∧
    ∀ b : Bool,
      MatchesPattern_matches regexCompile regexFullMatch reg actual ≠
        RegexOutcome.result b := by
  constructor
  · simp [MatchesPattern_matches, hinv]
  · intro b
    simp [MatchesPattern_matches, hinv]

/-- Witness for C7 at a concrete engine: a compiler rejecting every
pattern makes the matcher raise on pattern "(" and actual text "x". -/
theorem C7_invalid_pattern_raises_witness :
    MatchesPattern_matches (fun _ : String => (Option.none : Option Unit))
      (fun _ _ => false) "(" "x" = RegexOutcome.raised :=
  (C7_invalid_pattern_raises (fun _ : String => (Option.none : Option Unit))
    (fun _ _ => false) "(" "x" rfl).1

/-- Fuel-driven iterated halving: counts how often `n` can be halved
before dropping below 2; with enough fuel this is `⌊log₂ n⌋` for
`n ≥ 1`. -/
def log2fuel : Nat → Nat → Nat
  | 0, _ => 0
  | fuel + 1, n => if 2 ≤ n then log2fuel fuel (n / 2) + 1 else 0

/-- `⌊log₂ n⌋` for `n ≥ 1` (and 0 at 0); `n` halvings are always enough
fuel. -/
def natLog2 (n : Nat) : Nat := log2fuel n n

/-- The binary exponent of a positive rational: the unique `e` with
`2 ^ e ≤ x < 2 ^ (e + 1)`. -/
def qlog2 (x : ℚ) : ℤ :=
  if 1 ≤ x then (natLog2 ⌊x⌋₊ : ℤ)
  else
    let k := natLog2 ⌊x⁻¹⌋₊
    if x * 2 ^ k = 1 then -(k : ℤ) else -(k : ℤ) - 1

/-- Round a rational to the nearest integer, ties to the even
neighbour. -/
def roundNearestEven (x : ℚ) : ℤ :=
  let f := ⌊x⌋
  if x - f < 1 / 2 then f
  else if (1 : ℚ) / 2 < x - f then f + 1
  else if f % 2 = 0 then f else f + 1

/-- Round an exact rational to IEEE-754 binary64 (53-bit significand,
round to nearest, ties to even), with unbounded exponent range (no
overflow and no subnormal clamping, which is exact at the moderate
magnitudes appearing in the claims): the value a `double` subtraction
returns for an exact difference `x`. -/
def roundFP (x : ℚ) : ℚ :=
  if x = 0 then 0
  else
    let e : ℤ := qlog2 |x| - 52
    (roundNearestEven (x / 2 ^ e) : ℚ) * 2 ^ e

/-- `IsCloseTo::matches(expected, actual)`:
`std::fabs(actual - value) <= delta` with `value = expected.first` and
`delta = expected.second`, over IEEE binary64 `double` operands embedded
as exact rationals: the subtraction `actual - value` rounds its exact
result to binary64; `fabs` of a double and the `<=` comparison of two
doubles are exact. -/
def IsCloseTo_matches (expected : ℚ × ℚ) (actual : ℚ) : Bool :=
  decide (|roundFP (actual - expected.1)| ≤ expected.2)

theorem qlog2_of_one_le {x : ℚ} (h1 : 1 ≤ x) (h2 : x < 2) : qlog2 x = 0 := by
  unfold qlog2
  rw [if_pos h1]
  have hfl : ⌊x⌋₊ = 1 := by
    rw [Nat.floor_eq_iff (by linarith)]
    constructor <;> push_cast <;> linarith
  rw [hfl]
  norm_num [natLog2, log2fuel]

theorem roundFP_of_lt_half {x : ℚ} (h1 : 1 ≤ x) (h2 : x < 2) (n : ℤ)
    (hfl : ⌊x * 2 ^ 52⌋ = n) (hfr : x * 2 ^ 52 - (n : ℚ) < 1 / 2) :
    roundFP x = (n : ℚ) / 2 ^ 52 := by
  have hx0 : x ≠ 0 := by intro h; rw [h] at h1; norm_num at h1
  have habs : |x| = x := abs_of_pos (by linarith)
  simp only [roundFP, if_neg hx0, habs, qlog2_of_one_le h1 h2]
  have hE : (2 : ℚ) ^ ((0 : ℤ) - 52) = ((2 : ℚ) ^ (52 : ℕ))⁻¹ := by
    norm_num
  rw [hE, div_eq_mul_inv, inv_inv]
  have hR : roundNearestEven (x * 2 ^ 52) = n := by
    simp only [roundNearestEven, hfl]
    rw [if_pos hfr]
  rw [hR, div_eq_mul_inv]

theorem roundFP_one : roundFP 1 = 1 := by
  have h := roundFP_of_lt_half (x := 1) (by norm_num) (by norm_num) (2 ^ 52)
    (by norm_num) (by norm_num)
  rw [h]; norm_num

theorem roundFP_three_halves : roundFP (3 / 2) = 3 / 2 := by
  have h := roundFP_of_lt_half (x := 3 / 2) (by norm_num) (by norm_num)
    (3 * 2 ^ 51) (by norm_num) (by norm_num)
  rw [h]; norm_num

theorem roundFP_near_one : roundFP (1 + 1 / 2 ^ 54 : ℚ) = 1 := by
  have h := roundFP_of_lt_half (x := 1 + 1 / 2 ^ 54) (by norm_num)
    (by norm_num) (2 ^ 52)
    (by rw [Int.floor_eq_iff]; constructor <;> push_cast <;> norm_num)
    (by push_cast; norm_num)
  rw [h]; norm_num

/-- C9 counterexample: at the representable doubles `v = 3·2⁻⁵⁴`,
`d = 1`, `a = 1 + 2⁻⁵²`, the actual value lies strictly beyond `v + d`
(the exact difference is `1 + 2⁻⁵⁴ > d`), yet rounding the subtraction
to binary64 yields exactly 1, so `closeTo(v, d).matches(a)` returns
true — refuting the claim that any `a` strictly beyond `v + d` does not
match. -/
theorem C9_closeTo_rounding_ce :
    (3 / 2 ^ 54 : ℚ) + 1 < 1 + 1 / 2 ^ 52 ∧
    IsCloseTo_matches (3 / 2 ^ 54, 1) (1 + 1 / 2 ^ 52) = true := by
  constructor
  · norm_num
  · have hx : ((1 + 1 / 2 ^ 52 : ℚ) - 3 / 2 ^ 54) = 1 + 1 / 2 ^ 54 := by
      norm_num
    have h1 : roundFP ((1 + 1 / 2 ^ 52 : ℚ) - 3 / 2 ^ 54) = 1 := by
      rw [hx, roundFP_near_one]
    have h2 : |roundFP ((1 + 1 / 2 ^ 52 : ℚ) - 3 / 2 ^ 54)| ≤ 1 := by
      rw [h1]; norm_num
    exact decide_eq_true h2

/-- C9 (amended): `closeTo(v, d).matches(a)` compares the IEEE-rounded
difference `fl(a - v)` against `d`.  Whenever the subtraction is exact
(incurs no rounding error) the originally claimed behaviour holds: the
matcher is true iff `|a - v| ≤ d`, the boundary `a - v = d` matches
(inclusive), and any `a` strictly beyond `v + d` does not; when the
subtraction rounds, an `a` strictly beyond `v + d` can still match (see
the counterexample). -/
theorem C9_closeTo_exact (v d a : ℚ) (hd : 0 ≤ d)
    (hex : roundFP (a - v) = a - v) :
    (IsCloseTo_matches (v, d) a = true ↔ |a - v| ≤ d) ∧
    (a - v = d → IsCloseTo_matches (v, d) a = true) ∧
    (d < a - v → IsCloseTo_matches (v, d) a = false) := by
  refine ⟨?_, ?_, ?_⟩
  · simp [IsCloseTo_matches, hex]
  · intro hb
    have h2 : |a - v| ≤ d := le_of_eq (by rw [hb, abs_of_nonneg hd])
    simpa [IsCloseTo_matches, hex] using h2
  · intro hb
    have h1 : ¬ |a - v| ≤ d := by
      rw [abs_of_nonneg (le_of_lt (lt_of_le_of_lt hd hb))]
      linarith
    simp only [IsCloseTo_matches, hex, decide_eq_false_iff_not]
    exact h1

/-- Witness for C9 at concrete values with exact subtractions:
`closeTo(0, 1)` accepts the boundary actual value 1 and rejects the
actual value 3/2, which is strictly beyond `v + d`. -/
theorem C9_closeTo_exact_witness :
    IsCloseTo_matches ((0 : ℚ), 1) 1 = true ∧
    IsCloseTo_matches ((0 : ℚ), 1) (3 / 2) = false :=
  ⟨(C9_closeTo_exact 0 1 1 (by norm_num)
      (by norm_num [roundFP_one])).2.1 (by norm_num),
   (C9_closeTo_exact 0 1 (3 / 2) (by norm_num)
      (by norm_num [roundFP_three_halves])).2.2 (by norm_num)⟩

/-- Regular-expression abstract syntax, the compiled form of pattern
text handed to the pattern engine (modelled from the spec: the engine is
the host language's standard one, outside this repository; the core
supplies pattern text and candidate text and expects a full-match
boolean). -/
inductive RE where
  | emp
  | eps
  | ch (c : Char)
  | cat (r s : RE)
  | alt (r s : RE)
  | star (r : RE)
deriving DecidableEq

/-- The language of a regular expression: `REMatch r w` states that the
whole of `w` is generated by `r`. -/
inductive REMatch : RE → List Char → Prop where
  | eps : REMatch RE.eps []
  | ch (c : Char) : REMatch (RE.ch c) [c]
  | cat {r s : RE} {u v : List Char} :
      REMatch r u → REMatch s v → REMatch (RE.cat r s) (u ++ v)
  | altL {r s : RE} {u : List Char} : REMatch r u → REMatch (RE.alt r s) u
  | altR {r s : RE} {u : List Char} : REMatch s u → REMatch (RE.alt r s) u
  | starNil {r : RE} : REMatch (RE.star r) []
  | starCons {r : RE} {u v : List Char} :
      REMatch r u → REMatch (RE.star r) v → REMatch (RE.star r) (u ++ v)

/-- Does `r` generate the empty word? -/
def nullable : RE → Bool
  | RE.emp => false
  | RE.eps => true
  | RE.ch _ => false
  | RE.cat r s => nullable r && nullable s
  | RE.alt r s => nullable r || nullable s
  | RE.star _ => true

/-- Brzozowski derivative of `r` by the character `c`. -/
def derivRE (c : Char) : RE → RE
  | RE.emp => RE.emp
  | RE.eps => RE.emp
  | RE.ch d => if d = c then RE.eps else RE.emp
  | RE.cat r s =>
      if nullable r then RE.alt (RE.cat (derivRE c r) s) (derivRE c s)
      else RE.cat (derivRE c r) s
  | RE.alt r s => RE.alt (derivRE c r) (derivRE c s)
  | RE.star r => RE.cat (derivRE c r) (RE.star r)

/-- Full-string matching of a word against a regular expression, the
boolean the engine returns for `std::regex_match`. -/
def reMatch (r : RE) : List Char → Bool
  | [] => nullable r
  | c :: cs => reMatch (derivRE c r) cs

theorem REMatch_nil_nullable {r : RE} {w : List Char} (h : REMatch r w) :
    w = [] → nullable r = true := by
  induction h with
  | eps => intro _; rfl
  | ch c => intro hw; simp at hw
  | cat h1 h2 ih1 ih2 =>
    intro hw
    rw [List.append_eq_nil] at hw
    simp [nullable, ih1 hw.1, ih2 hw.2]
  | altL h ih => intro hw; simp [nullable, ih hw]
  | altR h ih => intro hw; simp [nullable, ih hw]
  | starNil => intro _; rfl
  | starCons h1 h2 ih1 ih2 => intro _; rfl

theorem nullable_sound : ∀ r : RE, nullable r = true → REMatch r []
  | RE.emp, h => by simp [nullable] at h
  | RE.eps, _ => REMatch.eps
  | RE.ch c, h => by simp [nullable] at h
  | RE.cat r s, h => by
    simp only [nullable, Bool.and_eq_true] at h
    exact REMatch.cat (nullable_sound r h.1) (nullable_sound s h.2)
  | RE.alt r s, h => by
    simp only [nullable, Bool.or_eq_true] at h
    cases h with
    | inl h1 => exact REMatch.altL (nullable_sound r h1)
    | inr h2 => exact REMatch.altR (nullable_sound s h2)
  | RE.star r, _ => REMatch.starNil

theorem nullable_iff (r : RE) : nullable r = true ↔ REMatch r [] :=
  ⟨nullable_sound r, fun h => REMatch_nil_nullable h rfl⟩

theorem derivRE_sound {c : Char} :
    ∀ {r : RE} {w : List Char}, REMatch (derivRE c r) w → REMatch r (c :: w) := by
  intro r
  induction r with
  | emp => intro w h; simp only [derivRE] at h; cases h
  | eps => intro w h; simp only [derivRE] at h; cases h
  | ch d =>
    intro w h
    simp only [derivRE] at h
    by_cases hdc : d = c
    · rw [if_pos hdc] at h
      cases h
      subst hdc
      exact REMatch.ch d
    · rw [if_neg hdc] at h
      cases h
  | cat r s ihr ihs =>
    intro w h
    simp only [derivRE] at h
    by_cases hn : nullable r = true
    · rw [if_pos hn] at h
      cases h with
      | altL h1 =>
        cases h1 with
        | cat hu hv => simpa using REMatch.cat (ihr hu) hv
      | altR h2 =>
        simpa using REMatch.cat (nullable_sound r hn) (ihs h2)
    · rw [if_neg hn] at h
      cases h with
      | cat hu hv => simpa using REMatch.cat (ihr hu) hv
  | alt r s ihr ihs =>
    intro w h
    simp only [derivRE] at h
    cases h with
    | altL h1 => exact REMatch.altL (ihr h1)
    | altR h2 => exact REMatch.altR (ihs h2)
  | star r ih =>
    intro w h
    simp only [derivRE] at h
    cases h with
    | cat hu hv => simpa using REMatch.starCons (ih hu) hv

theorem derivRE_complete {r : RE} {w0 : List Char} (h : REMatch r w0) :
    ∀ {c : Char} {w : List Char}, w0 = c :: w → REMatch (derivRE c r) w := by
  induction h with
  | eps => intro c w hw; simp at hw
  | ch d =>
    intro c w hw
    injection hw with h1 h2
    subst h1
    subst h2
    simp only [derivRE, if_pos rfl]
    exact REMatch.eps
  | cat h1 h2 ih1 ih2 =>
    rename_i r s u v
    intro c w hw
    cases u with
    | nil =>
      simp only [List.nil_append] at hw
      have hn : nullable r = true := (nullable_iff r).mpr h1
      simp only [derivRE, if_pos hn]
      exact REMatch.altR (ih2 hw)
    | cons a u2 =>
      simp only [List.cons_append] at hw
      injection hw with ha hw2
      subst ha
      subst hw2
      by_cases hn : nullable r = true
      · simp only [derivRE, if_pos hn]
        exact REMatch.altL (REMatch.cat (ih1 rfl) h2)
      · simp only [derivRE, if_neg hn]
        exact REMatch.cat (ih1 rfl) h2
  | altL h ih =>
    intro c w hw
    simp only [derivRE]
    exact REMatch.altL (ih hw)
  | altR h ih =>
    intro c w hw
    simp only [derivRE]
    exact REMatch.altR (ih hw)
  | starNil => intro c w hw; simp at hw
  | starCons h1 h2 ih1 ih2 =>
    rename_i r u v
    intro c w hw
    cases u with
    | nil =>
      simp only [List.nil_append] at hw
      exact ih2 hw
    | cons a u2 =>
      simp only [List.cons_append] at hw
      injection hw with ha hw2
      subst ha
      subst hw2
      simp only [derivRE]
      exact REMatch.cat (ih1 rfl) h2

theorem reMatch_iff (r : RE) (s : List Char) :
    reMatch r s = true ↔ REMatch r s := by
  induction s generalizing r with
  | nil => simpa [reMatch] using nullable_iff r
  | cons c cs ih =>
    simp only [reMatch]
    rw [ih (derivRE c r)]
    exact ⟨fun h => derivRE_sound h, fun h => derivRE_complete h rfl⟩

/-- The compiled form of the pattern text "ab*c". -/
def pat_ab_star_c : RE :=
  RE.cat (RE.ch 'a') (RE.cat (RE.star (RE.ch 'b')) (RE.ch 'c'))

/-- C8: the engine's match (`std::regex_match`, modelled from the spec as
`reMatch`) is a full-string match — it answers true exactly when the
whole actual text is in the pattern's language — and concretely the
pattern "ab*c" accepts "abc" and rejects "xabc" even though "xabc"
contains a partial match. -/
theorem C8_pattern_full_match (r : RE) (a : List Char) :
    (reMatch r a = true ↔ REMatch r a) ∧
    reMatch pat_ab_star_c ['a', 'b', 'c'] = true ∧
    reMatch pat_ab_star_c ['x', 'a', 'b', 'c'] = false :=
  ⟨reMatch_iff r a, by decide, by decide⟩
